import Mathlib

/-!
# Verification of `haplogroup_visualization.py`

A shallow embedding of the data-processing pipeline of
`haplogroup_visualization.py` (Population_Genetics_Project-2025):

* the haplogroup-string cleanup (`pandas.Series.str.replace` with the
  regex `[+\/\(\)'~@\-or\s].*`),
* the placeholder / empty-code filters and the split into the Y and mt
  lineage tables,
* the BC/AD era-label derivation from the `Mean BP` column,
* the 10-bin era binner (`pd.cut` with right-closed bins),
* the per-cluster summary (era-range merge, country display),
* the CLI cluster-flag validation,
* the coordinate deduplication, cluster membership subsetting and
  per-cluster record counting,
* a model of the spatial clusterer.

Machine-level details that the script delegates to its runtime
(floating point rounding of coordinates, spreadsheet parsing) are
outside the embedding: coordinates are taken post-rounding, as integer
hundredths of a degree, and absent spreadsheet cells are `Option.none`.
-/

/-! ## Python string helpers (char-level models of `str` operations) -/

/-- Python's `\s` whitespace class (ASCII part), as used by `str.strip()`
and by the `\s` member of the cleanup regex character class. -/
def isPySpace (c : Char) : Bool :=
  c = ' ' || c = '\t' || c = '\n' || c = '\x0d' || c = '\x0b' || c = '\x0c'

/-- `startsWithL pat l` : does `l` start with `pat`?  (model of Python
substring search at one position). -/
def startsWithL : List Char → List Char → Bool
  | [], _ => true
  | _ :: _, [] => false
  | p :: ps, c :: cs => p = c && startsWithL ps cs

/-- `hasSub pat l` : does `pat` occur as a contiguous substring of `l`?
Models Python's `pat in s` / `Series.str.contains` for a literal
alternative of the regex `n/a|na|NaN|not|Likely`. -/
def hasSub (pat : List Char) : List Char → Bool
  | [] => startsWithL pat []
  | c :: t => startsWithL pat (c :: t) || hasSub pat t

/-- The placeholder filter of lines 264-265:
`str.contains("n/a|na|NaN|not|Likely")` — true when any of the five
literal alternatives occurs as a substring. -/
def hasPlaceholder (s : String) : Bool :=
  hasSub "n/a".data s.data || hasSub "na".data s.data ||
  hasSub "NaN".data s.data || hasSub "not".data s.data ||
  hasSub "Likely".data s.data

/-- The empty-code filter of lines 266-267: `str.strip().ne('')` is
false exactly when every character is whitespace (`strip` removes all
leading/trailing whitespace, so the result is `''` iff the whole string
is whitespace). -/
def stripEmpty (s : String) : Bool :=
  s.data.all isPySpace

/-! ## The cleanup regex (lines 270-271)

`str.replace(r"[+\/\(\)'~@\-or\s].*", "", regex=True)` is `re.sub` of
the pattern over the whole string.  The character class contains the
literal characters `+ / ( ) ' ~ @ -`, the two single letters `o` and
`r` (from the `-or` run), and the whitespace class `\s`.  In Python's
`re`, `.` matches every character except `'\n'`, so one match consumes
a cut character and the rest of its line, and `re.sub` resumes
scanning at the following `'\n'` — which is itself in the class
(via `\s`). -/

/-- The character class of the cleanup regex `[+\/\(\)'~@\-or\s]`. -/
def isCutChar (c : Char) : Bool :=
  c = '+' || c = '/' || c = '(' || c = ')' || c = '\'' || c = '~' ||
  c = '@' || c = '-' || c = 'o' || c = 'r' || isPySpace c

/-- One `re.sub` scan of the cleanup pattern: a non-cut character is
copied; at a cut character the match consumes it together with the rest
of its line (`.` does not match `'\n'`), and the scan resumes at the
next `'\n'`.  The scan is driven by a fuel argument (the string length
suffices: every step consumes at least one character). -/
def reSubCut : Nat → List Char → List Char
  | _, [] => []
  | 0, l => l
  | n + 1, c :: cs =>
    if isCutChar c then reSubCut n (cs.dropWhile (fun d => d ≠ '\n'))
    else c :: reSubCut n cs

/-- The cleanup of lines 270-271 applied to one haplogroup string. -/
def cleanup (l : List Char) : List Char :=
  reSubCut l.length l

/-- The cleanup applied to a `String` column entry. -/
def cleanupStr (s : String) : String :=
  (cleanup s.data).asString

lemma length_dropWhile_le' (p : Char → Bool) (l : List Char) :
    (l.dropWhile p).length ≤ l.length := by
  induction l with
  | nil => simp
  | cons c cs ih =>
    by_cases h : p c = true
    · rw [List.dropWhile_cons_of_pos h, List.length_cons]
      omega
    · rw [List.dropWhile_cons_of_neg h]

lemma dropWhile_head_false (p : Char → Bool) :
    ∀ (l : List Char) (c : Char) (cs : List Char),
      l.dropWhile p = c :: cs → p c = false := by
  intro l
  induction l with
  | nil => intro c cs h; simp [List.dropWhile] at h
  | cons x xs ih =>
    intro c cs h
    by_cases hx : p x = true
    · rw [List.dropWhile_cons_of_pos hx] at h
      exact ih c cs h
    · rw [List.dropWhile_cons_of_neg hx] at h
      cases h
      simpa using hx

lemma reSubCut_eq_takeWhile :
    ∀ (n : Nat) (l : List Char), l.length ≤ n →
      reSubCut n l = l.takeWhile (fun c => !isCutChar c) := by
  intro n
  induction n with
  | zero =>
    intro l hl
    have : l = [] := List.length_eq_zero.mp (Nat.le_zero.mp hl)
    subst this
    simp [reSubCut]
  | succ n ih =>
    intro l hl
    match l with
    | [] => simp [reSubCut]
    | c :: cs =>
      by_cases hc : isCutChar c = true
      · rw [reSubCut, if_pos hc]
        have hd := length_dropWhile_le' (fun d => decide (d ≠ '\n')) cs
        have hlen : (cs.dropWhile (fun d => d ≠ '\n')).length ≤ n := by
          simp only [List.length_cons] at hl
          omega
        rw [ih _ hlen, List.takeWhile_cons]
        simp only [hc, Bool.not_true]
        rw [if_neg (by simp)]
        match he : cs.dropWhile (fun d => d ≠ '\n') with
        | [] => simp
        | d :: ds =>
          have : (decide (d ≠ '\n')) = false := dropWhile_head_false _ cs d ds he
          have hdn : d = '\n' := by simpa using this
          rw [List.takeWhile_cons]
          have hcd : isCutChar d = true := by rw [hdn]; decide
          simp [hcd]
      · rw [reSubCut, if_neg hc, List.takeWhile_cons]
        have hlen : cs.length ≤ n := by
          simp only [List.length_cons] at hl
          omega
        simp only [hc, Bool.not_false, if_true]
        rw [ih _ hlen]

/-- The substitution removes everything from the first cut character on:
`cleanup` is `takeWhile (not cut)`.  The key point is that after one
match ends (at a line end), the resumption character `'\n'` is itself in
the class, so the whole tail disappears. -/
lemma cleanup_eq_takeWhile (l : List Char) :
    cleanup l = l.takeWhile (fun c => !isCutChar c) :=
  reSubCut_eq_takeWhile l.length l le_rfl

lemma takeWhile_all_eq (p : Char → Bool) :
    ∀ l : List Char, (∀ c ∈ l, p c = true) → l.takeWhile p = l := by
  intro l
  induction l with
  | nil => simp
  | cons c cs ih =>
    intro h
    rw [List.takeWhile_cons, if_pos (h c (List.mem_cons_self c cs))]
    rw [ih (fun d hd => h d (List.mem_cons_of_mem c hd))]

lemma takeWhile_idem (p : Char → Bool) (l : List Char) :
    (l.takeWhile p).takeWhile p = l.takeWhile p := by
  apply takeWhile_all_eq
  intro c hc
  exact (List.mem_takeWhile_imp hc)

lemma cleanup_idem (l : List Char) : cleanup (cleanup l) = cleanup l := by
  have h1 := cleanup_eq_takeWhile l
  have h2 := cleanup_eq_takeWhile (cleanup l)
  rw [h2, h1, takeWhile_idem]

/-- C4: For every retained lineage code string, the cleanup of lines
270-271 truncates the string at (and including) the first occurrence of
a character of the class `{+, /, (, ), ', ~, @, -, o, r, whitespace}`
(the letters `o` and `r` are literal cut characters of the pattern); a
string containing none of these characters is unchanged, and
`"R1b1a2a1a2~"` becomes `"R1b1a2a1a2"`. -/
theorem code_cleanup_truncates_at_first_cut (l : List Char) :
    cleanup l = l.takeWhile (fun c => !isCutChar c) ∧
    ((∀ c ∈ l, isCutChar c = false) → cleanup l = l) ∧
    cleanupStr "R1b1a2a1a2~" = "R1b1a2a1a2" := by
  refine ⟨cleanup_eq_takeWhile l, ?_, by decide⟩
  intro h
  rw [cleanup_eq_takeWhile]
  apply takeWhile_all_eq
  intro c hc
  simp [h c hc]

theorem code_cleanup_truncates_witness :
    (∀ c ∈ "R1b".data, isCutChar c = false) ∧ cleanup "R1b".data = "R1b".data :=
  ⟨by decide, (code_cleanup_truncates_at_first_cut "R1b".data).2.1 (by decide)⟩

/-- C8: applying the cleanup truncation twice yields the same result as
applying it once — the output of one pass contains no further cut
characters. -/
theorem code_cleanup_idempotent (s : String) :
    cleanupStr (cleanupStr s) = cleanupStr s := by
  unfold cleanupStr
  have : ((cleanup s.data).asString).data = cleanup s.data := rfl
  rw [this, cleanup_idem]

/-! ## The record model and the shared cleaning pipeline (lines 182-277)

One spreadsheet row, after column dropping/renaming: `Mean BP`,
`Country`, `Lat`, `Long` (`columns[2]` and `columns[3]` of the frame),
`Y haplogroup`, `mtDNA haplogroup`, and the derived `Age` column.
Coordinates are post-rounding integer hundredths of a degree; a missing
(`..` / NA) coordinate is `none`. -/

structure Record where
  meanBP : Int
  country : String
  lat : Option Int
  long : Option Int
  yHap : String
  mtHap : String
  age : String
deriving DecidableEq

/-- Line 239-243: the `Age` column,
`np.where(BP >= 1950, str(BP - 1949) + " BC", str(1950 - BP) + " AD")`. -/
def ageLabel (bp : Int) : String :=
  if 1950 ≤ bp then toString (bp - 1949) ++ " BC"
  else toString (1950 - bp) ++ " AD"

/-- The column-mutating steps applied to every surviving row: the `Age`
column (line 239) and the haplogroup cleanup of both columns
(lines 270-271). -/
def cleanRecord (r : Record) : Record :=
  { r with
    age := ageLabel r.meanBP,
    yHap := cleanupStr r.yHap,
    mtHap := cleanupStr r.mtHap }

/-- Lines 236-271 applied to the shared `annotations` frame, in source
order: drop `Mean BP = 0` rows (line 236), drop missing coordinates
(lines 248-252), drop rows whose Y **or** mtDNA haplogroup is a
placeholder (lines 264-265) or whitespace-only (lines 266-267), then
derive `Age` and truncate both haplogroup columns.  (In the source the
`Age` column is added between the BP filter and the coordinate filters;
no filter reads it, so applying the row mutations after the filters
yields the same rows.) -/
def sharedClean (rs : List Record) : List Record :=
  ((((((((rs.filter (fun r => r.meanBP != 0)).filter
      (fun r => r.lat.isSome)).filter
      (fun r => r.long.isSome)).filter
      (fun r => !hasPlaceholder r.yHap)).filter
      (fun r => !hasPlaceholder r.mtHap)).filter
      (fun r => !stripEmpty r.yHap)).filter
      (fun r => !stripEmpty r.mtHap)).map cleanRecord)

/-- Line 276 and 282: the Y-lineage table — the shared frame minus the
mtDNA column, with the `'..'` unknown codes removed (per lineage). -/
def annotations_Y (rs : List Record) : List Record :=
  (sharedClean rs).filter (fun r => r.yHap != "..")

/-- Line 277 and 285: the mt-lineage table — the shared frame minus the
Y column, with the `'..'` unknown codes removed (per lineage). -/
def annotations_mt (rs : List Record) : List Record :=
  (sharedClean rs).filter (fun r => r.mtHap != "..")

/-- The row-retention predicate of the shared pipeline: all seven
filters of lines 236-267 fused into one conjunction. -/
def keepShared (r : Record) : Bool :=
  (r.meanBP != 0) && r.lat.isSome && r.long.isSome &&
  !hasPlaceholder r.yHap && !hasPlaceholder r.mtHap &&
  !stripEmpty r.yHap && !stripEmpty r.mtHap

lemma sharedClean_eq (rs : List Record) :
    sharedClean rs = (rs.filter keepShared).map cleanRecord := by
  unfold sharedClean
  congr 1
  rw [List.filter_filter, List.filter_filter, List.filter_filter,
    List.filter_filter, List.filter_filter, List.filter_filter]
  apply List.filter_congr
  intro r _
  simp only [keepShared]
  cases (r.meanBP != 0) <;> cases r.lat.isSome <;> cases r.long.isSome <;>
    cases hasPlaceholder r.yHap <;> cases hasPlaceholder r.mtHap <;>
    cases stripEmpty r.yHap <;> cases stripEmpty r.mtHap <;> rfl

lemma sharedClean_singleton (r : Record) :
    sharedClean [r] = if keepShared r then [cleanRecord r] else [] := by
  rw [sharedClean_eq]
  by_cases h : keepShared r = true
  · rw [List.filter_cons_of_pos h, if_pos h]
    rfl
  · rw [List.filter_cons_of_neg h, if_neg h]
    rfl

/-- C1 counterexample: a record whose mtDNA code is the placeholder
`"n/a"` but whose Y code `"R1b"` is valid (no placeholder, not
whitespace-only, not `'..'` after cleanup) is nevertheless excluded
from the Y-lineage table, because the placeholder filters of lines
264-267 run on the shared frame before the split of lines 276-277. -/
theorem lineage_filter_not_independent_cex :
    hasPlaceholder (Record.mk 100 "France" (some 4850) (some 230) "R1b" "n/a" "").mtHap = true ∧
    hasPlaceholder (Record.mk 100 "France" (some 4850) (some 230) "R1b" "n/a" "").yHap = false ∧
    stripEmpty (Record.mk 100 "France" (some 4850) (some 230) "R1b" "n/a" "").yHap = false ∧
    cleanupStr (Record.mk 100 "France" (some 4850) (some 230) "R1b" "n/a" "").yHap ≠ ".." ∧
    annotations_Y [Record.mk 100 "France" (some 4850) (some 230) "R1b" "n/a" ""] = [] := by
  refine ⟨by decide, by decide, by decide, by decide, ?_⟩
  decide

/-- C1 (amended): exclusion from a lineage table is decided jointly —
the placeholder/empty-code filters use *both* code columns on the
shared frame before the split, so a record whose sibling-lineage code
is a placeholder is excluded from this lineage's table as well; only
the `'..'` unknown-code removal after the split is per-lineage. -/
theorem lineage_split_joint_filtering (r : Record) :
    (annotations_Y [r] ≠ [] ↔ (keepShared r = true ∧ cleanupStr r.yHap ≠ "..")) ∧
    (annotations_mt [r] ≠ [] ↔ (keepShared r = true ∧ cleanupStr r.mtHap ≠ "..")) ∧
    (hasPlaceholder r.mtHap = true → annotations_Y [r] = []) ∧
    (hasPlaceholder r.yHap = true → annotations_mt [r] = []) := by
  have hY : annotations_Y [r]
      = (if keepShared r then [cleanRecord r] else []).filter (fun x => x.yHap != "..") := by
    unfold annotations_Y
    rw [sharedClean_singleton]
  have hmt : annotations_mt [r]
      = (if keepShared r then [cleanRecord r] else []).filter (fun x => x.mtHap != "..") := by
    unfold annotations_mt
    rw [sharedClean_singleton]
  have hyclean : (cleanRecord r).yHap = cleanupStr r.yHap := rfl
  have hmtclean : (cleanRecord r).mtHap = cleanupStr r.mtHap := rfl
  refine ⟨?_, ?_, ?_, ?_⟩
  · rw [hY]
    by_cases hk : keepShared r = true
    · rw [if_pos hk]
      by_cases hy : cleanupStr r.yHap = ".."
      · rw [List.filter_cons_of_neg (by simp [hyclean, hy])]
        simp [hk, hy]
      · rw [List.filter_cons_of_pos (by simp [hyclean, hy])]
        simp [hk, hy]
    · rw [if_neg hk]
      simp [hk]
  · rw [hmt]
    by_cases hk : keepShared r = true
    · rw [if_pos hk]
      by_cases hy : cleanupStr r.mtHap = ".."
      · rw [List.filter_cons_of_neg (by simp [hmtclean, hy])]
        simp [hk, hy]
      · rw [List.filter_cons_of_pos (by simp [hmtclean, hy])]
        simp [hk, hy]
    · rw [if_neg hk]
      simp [hk]
  · intro hph
    rw [hY]
    have : keepShared r = false := by
      simp [keepShared, hph]
    rw [this]
    simp
  · intro hph
    rw [hmt]
    have : keepShared r = false := by
      simp [keepShared, hph]
    rw [this]
    simp

theorem lineage_split_joint_filtering_witness :
    annotations_Y [Record.mk 100 "Spain" (some 4000) (some (-300)) "J2" "n/a" ""] = [] :=
  (lineage_split_joint_filtering (Record.mk 100 "Spain" (some 4000) (some (-300)) "J2" "n/a" "")).2.2.1
    (by decide)

/-- C5: era-label derivation — for `Mean BP ≥ 1950` the `Age` column is
`"{BP-1949} BC"`, for `Mean BP` in `[1,1949]` it is `"{1950-BP} AD"`,
and a record with `Mean BP = 0` is removed from the dataset (line 236)
before the `Age` column is derived (lines 239-243): no record of the
cleaned frame has `Mean BP = 0`, and each carries the derived label. -/
theorem era_label_derivation (rs : List Record) :
    (∀ bp : Int, 1950 ≤ bp → ageLabel bp = toString (bp - 1949) ++ " BC") ∧
    (∀ bp : Int, 1 ≤ bp → bp ≤ 1949 → ageLabel bp = toString (1950 - bp) ++ " AD") ∧
    (∀ r ∈ sharedClean rs, r.meanBP ≠ 0 ∧ r.age = ageLabel r.meanBP) := by
  refine ⟨?_, ?_, ?_⟩
  · intro bp h
    rw [ageLabel, if_pos h]
  · intro bp h1 h2
    rw [ageLabel, if_neg (by omega)]
  · intro r hr
    rw [sharedClean_eq] at hr
    rcases List.mem_map.mp hr with ⟨r₀, hr₀, rfl⟩
    rcases List.mem_filter.mp hr₀ with ⟨-, hk⟩
    have hbp : r₀.meanBP ≠ 0 := by
      simp only [keepShared, Bool.and_eq_true, bne_iff_ne] at hk
      exact hk.1.1.1.1.1.1
    exact ⟨hbp, rfl⟩

theorem era_label_derivation_witness :
    (1950 ≤ (4000 : Int) ∧ ageLabel 4000 = toString ((4000 : Int) - 1949) ++ " BC") ∧
    (1 ≤ (150 : Int) ∧ (150 : Int) ≤ 1949 ∧
      ageLabel 150 = toString ((1950 : Int) - 150) ++ " AD") :=
  ⟨⟨by decide, (era_label_derivation []).1 4000 (by decide)⟩,
   ⟨by decide, by decide, (era_label_derivation []).2.1 150 (by decide) (by decide)⟩⟩

/-! ## The era binner (lines 311-315)

`pd.cut(annotations["Mean BP"], bins=new_bp_ranges, labels=bp_labels,
right=True)`: right-closed intervals between consecutive bin edges;
with the default `include_lowest=False` the lowest edge itself is *not*
included, so a value equal to the first edge receives no label (NaN). -/

/-- Line 311: `new_bp_ranges`. -/
def new_bp_ranges : List Int :=
  [1, 1000, 2000, 3000, 4000, 5000, 6000, 7000, 8000, 11000, 44500]

/-- Line 312: `bp_labels`. -/
def bp_labels : List String :=
  ["1-1000", "1001-2000", "2001-3000", "3001-4000", "4001-5000",
   "5001-6000", "6001-7000", "7001-8000", "8001-11000", "11001-44500"]

/-- `pd.cut(x, bins, labels, right=True)` for one value: the label of
the first consecutive edge pair `(e₁, e₂]` containing `x`, else `none`
(NaN in pandas). -/
def cutBins (bp : Int) : List Int → List String → Option String
  | [], _ => none
  | [_], _ => none
  | _ :: _ :: _, [] => none
  | e1 :: e2 :: es, l :: ls =>
    if e1 < bp ∧ bp ≤ e2 then some l else cutBins bp (e2 :: es) ls

/-- The `BP range` column of lines 313-315. -/
def binBP (bp : Int) : Option String :=
  cutBins bp new_bp_ranges bp_labels

lemma binBP_expand (bp : Int) :
    binBP bp =
      (if 1 < bp ∧ bp ≤ 1000 then some "1-1000" else
       if 1000 < bp ∧ bp ≤ 2000 then some "1001-2000" else
       if 2000 < bp ∧ bp ≤ 3000 then some "2001-3000" else
       if 3000 < bp ∧ bp ≤ 4000 then some "3001-4000" else
       if 4000 < bp ∧ bp ≤ 5000 then some "4001-5000" else
       if 5000 < bp ∧ bp ≤ 6000 then some "5001-6000" else
       if 6000 < bp ∧ bp ≤ 7000 then some "6001-7000" else
       if 7000 < bp ∧ bp ≤ 8000 then some "7001-8000" else
       if 8000 < bp ∧ bp ≤ 11000 then some "8001-11000" else
       if 11000 < bp ∧ bp ≤ 44500 then some "11001-44500" else none) := rfl

lemma binBP_bin1 (bp : Int) (h1 : 1 < bp) (h2 : bp ≤ 1000) :
    binBP bp = some "1-1000" := by
  rw [binBP_expand]
  rw [if_pos (by omega)]

lemma binBP_bin2 (bp : Int) (h1 : 1000 < bp) (h2 : bp ≤ 2000) :
    binBP bp = some "1001-2000" := by
  rw [binBP_expand]
  rw [if_neg (by omega)]
  rw [if_pos (by omega)]

lemma binBP_bin3 (bp : Int) (h1 : 2000 < bp) (h2 : bp ≤ 3000) :
    binBP bp = some "2001-3000" := by
  rw [binBP_expand]
  iterate 2 rw [if_neg (by omega)]
  rw [if_pos (by omega)]

lemma binBP_bin4 (bp : Int) (h1 : 3000 < bp) (h2 : bp ≤ 4000) :
    binBP bp = some "3001-4000" := by
  rw [binBP_expand]
  iterate 3 rw [if_neg (by omega)]
  rw [if_pos (by omega)]

lemma binBP_bin5 (bp : Int) (h1 : 4000 < bp) (h2 : bp ≤ 5000) :
    binBP bp = some "4001-5000" := by
  rw [binBP_expand]
  iterate 4 rw [if_neg (by omega)]
  rw [if_pos (by omega)]

lemma binBP_bin6 (bp : Int) (h1 : 5000 < bp) (h2 : bp ≤ 6000) :
    binBP bp = some "5001-6000" := by
  rw [binBP_expand]
  iterate 5 rw [if_neg (by omega)]
  rw [if_pos (by omega)]

lemma binBP_bin7 (bp : Int) (h1 : 6000 < bp) (h2 : bp ≤ 7000) :
    binBP bp = some "6001-7000" := by
  rw [binBP_expand]
  iterate 6 rw [if_neg (by omega)]
  rw [if_pos (by omega)]

lemma binBP_bin8 (bp : Int) (h1 : 7000 < bp) (h2 : bp ≤ 8000) :
    binBP bp = some "7001-8000" := by
  rw [binBP_expand]
  iterate 7 rw [if_neg (by omega)]
  rw [if_pos (by omega)]

lemma binBP_bin9 (bp : Int) (h1 : 8000 < bp) (h2 : bp ≤ 11000) :
    binBP bp = some "8001-11000" := by
  rw [binBP_expand]
  iterate 8 rw [if_neg (by omega)]
  rw [if_pos (by omega)]

lemma binBP_bin10 (bp : Int) (h1 : 11000 < bp) (h2 : bp ≤ 44500) :
    binBP bp = some "11001-44500" := by
  rw [binBP_expand]
  iterate 9 rw [if_neg (by omega)]
  rw [if_pos (by omega)]

lemma binBP_none_of (bp : Int) (h : bp ≤ 1 ∨ 44500 < bp) :
    binBP bp = none := by
  rw [binBP_expand]
  iterate 10 rw [if_neg (by omega)]

lemma binBP_characterization (bp : Int) :
    (binBP bp = some "1-1000" ↔ 1 < bp ∧ bp ≤ 1000) ∧
    (binBP bp = some "1001-2000" ↔ 1000 < bp ∧ bp ≤ 2000) ∧
    (binBP bp = some "2001-3000" ↔ 2000 < bp ∧ bp ≤ 3000) ∧
    (binBP bp = some "3001-4000" ↔ 3000 < bp ∧ bp ≤ 4000) ∧
    (binBP bp = some "4001-5000" ↔ 4000 < bp ∧ bp ≤ 5000) ∧
    (binBP bp = some "5001-6000" ↔ 5000 < bp ∧ bp ≤ 6000) ∧
    (binBP bp = some "6001-7000" ↔ 6000 < bp ∧ bp ≤ 7000) ∧
    (binBP bp = some "7001-8000" ↔ 7000 < bp ∧ bp ≤ 8000) ∧
    (binBP bp = some "8001-11000" ↔ 8000 < bp ∧ bp ≤ 11000) ∧
    (binBP bp = some "11001-44500" ↔ 11000 < bp ∧ bp ≤ 44500) ∧
    (binBP bp = none ↔ (bp ≤ 1 ∨ 44500 < bp)) := by
  by_cases c0 : bp ≤ 1
  · rw [binBP_none_of bp (Or.inl c0)]
    refine ⟨?_, ?_, ?_, ?_, ?_, ?_, ?_, ?_, ?_, ?_, ?_⟩ <;>
      first
      | exact iff_of_true rfl (by omega)
      | exact iff_of_false (by decide) (by omega)
  · by_cases c1 : bp ≤ 1000
    · rw [binBP_bin1 bp (by omega) c1]
      refine ⟨?_, ?_, ?_, ?_, ?_, ?_, ?_, ?_, ?_, ?_, ?_⟩ <;>
        first
        | exact iff_of_true rfl (by omega)
        | exact iff_of_false (by decide) (by omega)
    · by_cases c2 : bp ≤ 2000
      · rw [binBP_bin2 bp (by omega) c2]
        refine ⟨?_, ?_, ?_, ?_, ?_, ?_, ?_, ?_, ?_, ?_, ?_⟩ <;>
          first
          | exact iff_of_true rfl (by omega)
          | exact iff_of_false (by decide) (by omega)
      · by_cases c3 : bp ≤ 3000
        · rw [binBP_bin3 bp (by omega) c3]
          refine ⟨?_, ?_, ?_, ?_, ?_, ?_, ?_, ?_, ?_, ?_, ?_⟩ <;>
            first
            | exact iff_of_true rfl (by omega)
            | exact iff_of_false (by decide) (by omega)
        · by_cases c4 : bp ≤ 4000
          · rw [binBP_bin4 bp (by omega) c4]
            refine ⟨?_, ?_, ?_, ?_, ?_, ?_, ?_, ?_, ?_, ?_, ?_⟩ <;>
              first
              | exact iff_of_true rfl (by omega)
              | exact iff_of_false (by decide) (by omega)
          · by_cases c5 : bp ≤ 5000
            · rw [binBP_bin5 bp (by omega) c5]
              refine ⟨?_, ?_, ?_, ?_, ?_, ?_, ?_, ?_, ?_, ?_, ?_⟩ <;>
                first
                | exact iff_of_true rfl (by omega)
                | exact iff_of_false (by decide) (by omega)
            · by_cases c6 : bp ≤ 6000
              · rw [binBP_bin6 bp (by omega) c6]
                refine ⟨?_, ?_, ?_, ?_, ?_, ?_, ?_, ?_, ?_, ?_, ?_⟩ <;>
                  first
                  | exact iff_of_true rfl (by omega)
                  | exact iff_of_false (by decide) (by omega)
              · by_cases c7 : bp ≤ 7000
                · rw [binBP_bin7 bp (by omega) c7]
                  refine ⟨?_, ?_, ?_, ?_, ?_, ?_, ?_, ?_, ?_, ?_, ?_⟩ <;>
                    first
                    | exact iff_of_true rfl (by omega)
                    | exact iff_of_false (by decide) (by omega)
                · by_cases c8 : bp ≤ 8000
                  · rw [binBP_bin8 bp (by omega) c8]
                    refine ⟨?_, ?_, ?_, ?_, ?_, ?_, ?_, ?_, ?_, ?_, ?_⟩ <;>
                      first
                      | exact iff_of_true rfl (by omega)
                      | exact iff_of_false (by decide) (by omega)
                  · by_cases c9 : bp ≤ 11000
                    · rw [binBP_bin9 bp (by omega) c9]
                      refine ⟨?_, ?_, ?_, ?_, ?_, ?_, ?_, ?_, ?_, ?_, ?_⟩ <;>
                        first
                        | exact iff_of_true rfl (by omega)
                        | exact iff_of_false (by decide) (by omega)
                    · by_cases c10 : bp ≤ 44500
                      · rw [binBP_bin10 bp (by omega) c10]
                        refine ⟨?_, ?_, ?_, ?_, ?_, ?_, ?_, ?_, ?_, ?_, ?_⟩ <;>
                          first
                          | exact iff_of_true rfl (by omega)
                          | exact iff_of_false (by decide) (by omega)
                      · rw [binBP_none_of bp (Or.inr (by omega))]
                        refine ⟨?_, ?_, ?_, ?_, ?_, ?_, ?_, ?_, ?_, ?_, ?_⟩ <;>
                          first
                          | exact iff_of_true rfl (by omega)
                          | exact iff_of_false (by decide) (by omega)

lemma binBP_eq_none_iff (bp : Int) :
    binBP bp = none ↔ (bp ≤ 1 ∨ 44500 < bp) :=
  (binBP_characterization bp).2.2.2.2.2.2.2.2.2.2

lemma binBP_isSome_iff (bp : Int) :
    (binBP bp).isSome = true ↔ (1 < bp ∧ bp ≤ 44500) := by
  rw [Option.isSome_iff_ne_none, ne_eq, binBP_eq_none_iff]
  omega

lemma cutBins_mem :
    ∀ (es : List Int) (ls : List String) (bp : Int) (l : String),
      cutBins bp es ls = some l → l ∈ ls := by
  intro es
  induction es with
  | nil =>
    intro ls bp l h
    rw [show cutBins bp [] ls = none from rfl] at h
    simp at h
  | cons e1 rest ih =>
    intro ls bp l h
    cases rest with
    | nil =>
      rw [show cutBins bp [e1] ls = none from rfl] at h
      simp at h
    | cons e2 es' =>
      cases ls with
      | nil =>
        rw [show cutBins bp (e1 :: e2 :: es') [] = none from rfl] at h
        simp at h
      | cons l0 ls' =>
        rw [show cutBins bp (e1 :: e2 :: es') (l0 :: ls')
            = if e1 < bp ∧ bp ≤ e2 then some l0 else cutBins bp (e2 :: es') ls' from rfl] at h
        split_ifs at h with hc
        · cases h
          exact List.mem_cons_self _ _
        · exact List.mem_cons_of_mem _ (ih ls' bp l h)

lemma binBP_mem_labels (bp : Int) (l : String) :
    binBP bp = some l → l ∈ bp_labels :=
  cutBins_mem new_bp_ranges bp_labels bp l

/-- C3 counterexample: the lowest edge is excluded by the right-closed
intervals of `pd.cut` — `Mean BP = 1` (inside the claimed closed
interval `[1,44500]`) receives no bin label, not `'1-1000'`. -/
theorem era_binner_at_one_cex :
    binBP 1 = none ∧ binBP 1 ≠ some "1-1000" := by
  refine ⟨?_, ?_⟩ <;> decide

/-- C3 (amended): the era binner is total and disjoint on the
*half-open* interval `(1,44500]`: every age-mean with `1 < bp ≤ 44500`
is assigned exactly the one right-closed bin whose interval contains
it, and every age-mean with `bp ≤ 1` (including the lowest edge `1`
itself, excluded by `pd.cut`) or with `bp > 44500` is assigned no
bin. -/
theorem era_binner_total_disjoint (bp : Int) :
    (binBP bp = some "1-1000" ↔ 1 < bp ∧ bp ≤ 1000) ∧
    (binBP bp = some "1001-2000" ↔ 1000 < bp ∧ bp ≤ 2000) ∧
    (binBP bp = some "2001-3000" ↔ 2000 < bp ∧ bp ≤ 3000) ∧
    (binBP bp = some "3001-4000" ↔ 3000 < bp ∧ bp ≤ 4000) ∧
    (binBP bp = some "4001-5000" ↔ 4000 < bp ∧ bp ≤ 5000) ∧
    (binBP bp = some "5001-6000" ↔ 5000 < bp ∧ bp ≤ 6000) ∧
    (binBP bp = some "6001-7000" ↔ 6000 < bp ∧ bp ≤ 7000) ∧
    (binBP bp = some "7001-8000" ↔ 7000 < bp ∧ bp ≤ 8000) ∧
    (binBP bp = some "8001-11000" ↔ 8000 < bp ∧ bp ≤ 11000) ∧
    (binBP bp = some "11001-44500" ↔ 11000 < bp ∧ bp ≤ 44500) ∧
    (binBP bp = none ↔ (bp ≤ 1 ∨ 44500 < bp)) :=
  binBP_characterization bp

theorem era_binner_total_disjoint_witness :
    binBP 1500 = some "1001-2000" :=
  (era_binner_total_disjoint 1500).2.1.mpr (by decide)


/-! ## Per-cluster summary (lines 405-432 for Y, 454-481 for mt)

For one cluster the script computes `bp_ranges = sorted(subset['BP
range'].unique(), key=lambda x: int(x.split('-')[0]))`, takes
`bp_ranges[0]` / `bp_ranges[-1]` and renders the merged era range, and
`countries = subset['Country'].unique()` with `countries[0]` in the
`len < 2` branch.  Failure points are modelled as `none`: indexing an
empty sequence (`IndexError`), calling `.split` on NaN
(`AttributeError`), and `int()` on a non-numeric prefix
(`ValueError`). -/

/-- `Series.unique()` / `drop_duplicates()`: first occurrence kept, in
order of appearance. -/
def dedupFSAux {α : Type} [DecidableEq α] (seen : List α) : List α → List α
  | [] => []
  | x :: xs =>
    if x ∈ seen then dedupFSAux seen xs else x :: dedupFSAux (x :: seen) xs

/-- Unique values of a column, in order of first appearance. -/
def dedupFS {α : Type} [DecidableEq α] (l : List α) : List α :=
  dedupFSAux [] l

lemma mem_dedupFSAux {α : Type} [DecidableEq α] (a : α) :
    ∀ (l seen : List α), a ∈ dedupFSAux seen l ↔ (a ∈ l ∧ a ∉ seen) := by
  intro l
  induction l with
  | nil => intro seen; simp [dedupFSAux]
  | cons x xs ih =>
    intro seen
    by_cases hx : x ∈ seen
    · rw [dedupFSAux, if_pos hx, ih seen]
      constructor
      · rintro ⟨h1, h2⟩
        exact ⟨List.mem_cons_of_mem _ h1, h2⟩
      · rintro ⟨h1, h2⟩
        rcases List.mem_cons.mp h1 with rfl | h1
        · exact absurd hx h2
        · exact ⟨h1, h2⟩
    · rw [dedupFSAux, if_neg hx, List.mem_cons, ih (x :: seen)]
      constructor
      · rintro (rfl | ⟨h1, h2⟩)
        · exact ⟨List.mem_cons_self _ _, hx⟩
        · exact ⟨List.mem_cons_of_mem _ h1, fun hc => h2 (List.mem_cons_of_mem _ hc)⟩
      · rintro ⟨h1, h2⟩
        by_cases hax : a = x
        · exact Or.inl hax
        · rcases List.mem_cons.mp h1 with rfl | h1
          · exact Or.inl rfl
          · refine Or.inr ⟨h1, fun hc => ?_⟩
            rcases List.mem_cons.mp hc with h | h
            · exact hax h
            · exact h2 h

lemma mem_dedupFS {α : Type} [DecidableEq α] (a : α) (l : List α) :
    a ∈ dedupFS l ↔ a ∈ l := by
  rw [dedupFS, mem_dedupFSAux]
  simp

/-- Iterating a fallible step over a list (`none` models a raised
exception): `some` of all values when no element fails, `none` when any
element fails. -/
def optionAll {α : Type} : List (Option α) → Option (List α)
  | [] => some []
  | none :: _ => none
  | some a :: rest => (optionAll rest).map (fun xs => a :: xs)

lemma optionAll_eq_none_iff {α : Type} :
    ∀ l : List (Option α), optionAll l = none ↔ none ∈ l := by
  intro l
  induction l with
  | nil => simp [optionAll]
  | cons o rest ih =>
    cases o with
    | none => simp [optionAll]
    | some a =>
      rw [optionAll]
      constructor
      · intro h
        rcases ho : optionAll rest with _ | xs
        · exact List.mem_cons_of_mem _ (ih.mp ho)
        · rw [ho] at h
          simp at h
      · intro h
        rcases List.mem_cons.mp h with h' | h'
        · exact Option.noConfusion h'
        · rw [ih.mpr h']
          rfl

lemma optionAll_some_mem {α : Type} :
    ∀ (l : List (Option α)) (xs : List α), optionAll l = some xs →
      ∀ x ∈ xs, some x ∈ l := by
  intro l
  induction l with
  | nil =>
    intro xs h x hx
    rw [optionAll] at h
    cases h
    simp at hx
  | cons o rest ih =>
    intro xs h x hx
    cases o with
    | none => exact Option.noConfusion h
    | some a =>
      rw [optionAll] at h
      rcases ho : optionAll rest with _ | ys
      · rw [ho] at h
        exact Option.noConfusion h
      · rw [ho] at h
        cases h
        rcases List.mem_cons.mp hx with rfl | hx'
        · exact List.mem_cons_self _ _
        · exact List.mem_cons_of_mem _ (ih ys ho x hx')

lemma optionAll_some_length {α : Type} :
    ∀ (l : List (Option α)) (xs : List α), optionAll l = some xs →
      xs.length = l.length := by
  intro l
  induction l with
  | nil =>
    intro xs h
    rw [optionAll] at h
    cases h
    rfl
  | cons o rest ih =>
    intro xs h
    cases o with
    | none => exact Option.noConfusion h
    | some a =>
      rw [optionAll] at h
      rcases ho : optionAll rest with _ | ys
      · rw [ho] at h
        exact Option.noConfusion h
      · rw [ho] at h
        cases h
        simp [ih ys ho]

/-- `x.split('-')[0]`: the characters before the first `'-'`. -/
def lowerOf (s : String) : List Char :=
  s.data.takeWhile (fun c => c ≠ '-')

/-- `x.split('-')[1]`: the characters between the first and (if any)
second `'-'`. -/
def upperOf (s : String) : List Char :=
  ((s.data.dropWhile (fun c => c ≠ '-')).drop 1).takeWhile (fun c => c ≠ '-')

/-- The numeric value of a digit string. -/
def digitsToNat (l : List Char) : Nat :=
  l.foldl (fun acc c => acc * 10 + (c.toNat - 48)) 0

/-- `int(x)` on a label part: succeeds on a non-empty all-digit string,
raises `ValueError` (modelled as `none`) otherwise. -/
def parseDigits? (l : List Char) : Option Nat :=
  if l ≠ [] ∧ l.all Char.isDigit then some (digitsToNat l) else none

/-- The sort key `lambda x: int(x.split('-')[0])`, total for sorting
purposes (its fallibility is handled separately in `clusterRange`). -/
def bpSortKey (s : String) : Nat :=
  (parseDigits? (lowerOf s)).getD 0

/-- Stable insertion for `sorted(..., key=bpSortKey)`. -/
def insertByKey (x : String) : List String → List String
  | [] => [x]
  | y :: ys =>
    if bpSortKey x ≤ bpSortKey y then x :: y :: ys else y :: insertByKey x ys

/-- `sorted(labels, key=lambda x: int(x.split('-')[0]))`. -/
def sortByKey : List String → List String
  | [] => []
  | x :: xs => insertByKey x (sortByKey xs)

lemma length_insertByKey (x : String) :
    ∀ l : List String, (insertByKey x l).length = l.length + 1 := by
  intro l
  induction l with
  | nil => rfl
  | cons y ys ih =>
    rw [insertByKey]
    split_ifs
    · rfl
    · simp only [List.length_cons, ih]

lemma length_sortByKey :
    ∀ l : List String, (sortByKey l).length = l.length := by
  intro l
  induction l with
  | nil => rfl
  | cons x xs ih =>
    rw [sortByKey, length_insertByKey, ih, List.length_cons]

/-- `'<br>'.join(countries)`. -/
def joinBr : List String → String
  | [] => ""
  | [x] => x
  | x :: y :: rest => x ++ "<br>" ++ joinBr (y :: rest)

/-- The sort key applied to every unique label — `sorted` evaluates
`int(x.split('-')[0])` on each element, raising (modelled `none`) if
any fails to parse. -/
def checkSortKeys (labels : List String) : Option (List Nat) :=
  optionAll (labels.map (fun s => parseDigits? (lowerOf s)))

/-- Lines 422-427: `bp_ranges[0]` / `bp_ranges[-1]` of the sorted
unique labels and the rendered range — `none` models the `IndexError`
on an empty `bp_ranges`. -/
def renderRange : List String → Option String
  | [] => none
  | s0 :: rest =>
    if lowerOf s0 = upperOf (rest.getLastD s0) then some (s0 ++ " BP")
    else some ((lowerOf s0).asString ++ "-" ++ (upperOf (rest.getLastD s0)).asString ++ " BP")

/-- Lines 420-427 (Y) / 469-476 (mt): the merged era-range string of a
cluster's record subset, from the subset's `BP range` column values
(`none` = NaN, i.e. an unbinned age).  `none` is returned exactly where
the source raises: `AttributeError` when the sort key's `.split` hits
NaN, `ValueError` when `int()` hits a non-numeric prefix, `IndexError`
on `bp_ranges[0]` of an empty subset. -/
def clusterRange (bins : List (Option String)) : Option String :=
  (optionAll (dedupFS bins)).bind (fun labels =>
    (checkSortKeys labels).bind (fun _ => renderRange (sortByKey labels)))

/-- Lines 428-432 (Y) / 477-481 (mt): the country display of a cluster —
`countries[0]` when fewer than two unique countries (an `IndexError`,
modelled `none`, when there are zero), else the `<br>`-join. -/
def clusterCountries (cs : List String) : Option String :=
  match dedupFS cs with
  | [] => none
  | [c] => some c
  | c1 :: c2 :: rest => some (joinBr (c1 :: c2 :: rest))

lemma clusterRange_none_of_none (bins : List (Option String))
    (h : none ∈ bins) : clusterRange bins = none := by
  have h1 : optionAll (dedupFS bins) = none :=
    (optionAll_eq_none_iff _).mpr ((mem_dedupFS _ _).mpr h)
  unfold clusterRange
  rw [h1]
  rfl

lemma clusterRange_isSome (bins : List (Option String)) (hne : bins ≠ [])
    (hval : ∀ o ∈ bins, ∃ l, o = some l ∧ (parseDigits? (lowerOf l)).isSome = true) :
    (clusterRange bins).isSome = true := by
  have hnone : (none : Option String) ∉ bins := by
    intro hc
    rcases hval none hc with ⟨l, hl, -⟩
    exact Option.noConfusion hl
  have h1 : optionAll (dedupFS bins) ≠ none := by
    intro hc
    exact hnone ((mem_dedupFS _ _).mp ((optionAll_eq_none_iff _).mp hc))
  obtain ⟨labels, hlab⟩ := Option.ne_none_iff_exists'.mp h1
  have h2 : checkSortKeys labels ≠ none := by
    intro hc
    have hc' := (optionAll_eq_none_iff _).mp hc
    rcases List.mem_map.mp hc' with ⟨x, hx, hfx⟩
    have hsx : some x ∈ bins :=
      (mem_dedupFS _ _).mp (optionAll_some_mem _ _ hlab x hx)
    rcases hval (some x) hsx with ⟨l, hl, hp⟩
    cases hl
    rw [hfx] at hp
    simp at hp
  obtain ⟨ys, hys⟩ := Option.ne_none_iff_exists'.mp h2
  have hdne : dedupFS bins ≠ [] := by
    match bins, hne with
    | b :: bs, _ =>
      exact List.ne_nil_of_mem ((mem_dedupFS b _).mpr (List.mem_cons_self _ _))
  have hlne : labels ≠ [] := by
    intro hc
    apply hdne
    have hlen := optionAll_some_length _ _ hlab
    rw [hc] at hlen
    exact List.length_eq_zero.mp hlen.symm
  have hs : sortByKey labels ≠ [] := by
    intro hc
    apply hlne
    have := length_sortByKey labels
    rw [hc] at this
    exact List.length_eq_zero.mp this.symm
  unfold clusterRange
  rw [hlab, Option.some_bind, hys, Option.some_bind]
  match hsk : sortByKey labels with
  | [] => exact absurd hsk hs
  | s0 :: rest =>
    rw [renderRange]
    by_cases hif : lowerOf s0 = upperOf (rest.getLastD s0)
    · rw [if_pos hif]
      rfl
    · rw [if_neg hif]
      rfl

/-- C2: the source has no fallback for a memberless cluster — with an
empty record subset both `bp_ranges[0]` and `countries[0]` index an
empty sequence and raise `IndexError` (modelled: the summary is `none`,
not a defined display value). -/
theorem cluster_summary_empty_raises :
    clusterRange ([] : List (Option String)) = none ∧
    clusterCountries ([] : List String) = none := by
  exact ⟨rfl, rfl⟩

/-- C10: the era-range merge is defined only when every member record
carries a bin label: one unbinned member (age-mean outside `(1,44500]`,
hence a NaN `BP range`) makes the sort key's `.split` call raise
instead of skipping that record, while a non-empty subset whose members
are all binned always renders a range — so a marker's summary is
produced exactly for clusters whose members are all binned. -/
theorem era_merge_requires_all_binned (rs : List Record) :
    ((∃ r ∈ rs, r.meanBP ≤ 1 ∨ 44500 < r.meanBP) →
      clusterRange (rs.map (fun r => binBP r.meanBP)) = none) ∧
    ((rs ≠ [] ∧ ∀ r ∈ rs, 1 < r.meanBP ∧ r.meanBP ≤ 44500) →
      (clusterRange (rs.map (fun r => binBP r.meanBP))).isSome = true) := by
  constructor
  · rintro ⟨r, hr, hout⟩
    apply clusterRange_none_of_none
    have : binBP r.meanBP = none := binBP_none_of _ (by omega)
    rw [← this]
    exact List.mem_map_of_mem _ hr
  · rintro ⟨hne, hin⟩
    apply clusterRange_isSome
    · intro hc
      exact hne (List.map_eq_nil_iff.mp hc)
    · intro o ho
      rcases List.mem_map.mp ho with ⟨r, hr, rfl⟩
      have hbp := hin r hr
      have hsome : (binBP r.meanBP).isSome = true :=
        (binBP_isSome_iff _).mpr ⟨hbp.1, hbp.2⟩
      obtain ⟨l, hl⟩ := Option.isSome_iff_exists.mp hsome
      refine ⟨l, hl, ?_⟩
      have hmem : l ∈ bp_labels := binBP_mem_labels _ _ hl
      have hall : ∀ x ∈ bp_labels, (parseDigits? (lowerOf x)).isSome = true := by
        decide
      exact hall l hmem

theorem era_merge_requires_all_binned_witness :
    clusterRange ([Record.mk 50000 "Chile" (some (-3000)) (some (-7000)) "C3" "D1" ""].map
      (fun r => binBP r.meanBP)) = none :=
  (era_merge_requires_all_binned
    [Record.mk 50000 "Chile" (some (-3000)) (some (-7000)) "C3" "D1" ""]).1
    ⟨Record.mk 50000 "Chile" (some (-3000)) (some (-7000)) "C3" "D1" "",
     List.mem_cons_self _ _, by decide⟩

/-! ## Coordinates, cluster membership and per-cluster counts
(lines 379-417)

`lat_long_locations = annotations[[columns[2], columns[3]]]
.drop_duplicates()` (the `Lat`/`Long` columns), cluster labels are a
function on those coordinate pairs, and for one cluster id the script
takes `cluster_points` (coordinates with that label) and `subset` (all
records whose coordinate pair `isin` the cluster's points), with
`total_indivs = subset.shape[0]`. -/

/-- A post-rounding coordinate pair (integer hundredths of a degree). -/
abbrev Point := Int × Int

/-- The `(Lat, Long)` pair of a record (`columns[2]`, `columns[3]`);
records in the cleaned frame always carry both coordinates. -/
def coordOf (r : Record) : Point :=
  (r.lat.getD 0, r.long.getD 0)

/-- Line 379-380: all distinct coordinate pairs, first occurrence
order. -/
def latLongLocations (rs : List Record) : List Point :=
  dedupFS (rs.map coordOf)

/-- Line 406: `cluster_points` — the distinct coordinates carrying this
cluster label. -/
def clusterPoints (rs : List Record) (label : Point → Nat) (c : Nat) : List Point :=
  (latLongLocations rs).filter (fun p => decide (label p = c))

/-- Lines 412-416: `subset` — the records whose coordinate pair is
`isin` the cluster's coordinate set. -/
def clusterSubset (rs : List Record) (label : Point → Nat) (c : Nat) : List Record :=
  rs.filter (fun r => decide (coordOf r ∈ clusterPoints rs label c))

/-- Line 417: `total_indivs = subset.shape[0]`. -/
def totalIndivs (rs : List Record) (label : Point → Nat) (c : Nat) : Nat :=
  (clusterSubset rs label c).length

lemma coordOf_mem_latLong (rs : List Record) (r : Record) (hr : r ∈ rs) :
    coordOf r ∈ latLongLocations rs :=
  (mem_dedupFS _ _).mpr (List.mem_map_of_mem _ hr)

lemma mem_clusterPoints_iff (rs : List Record) (label : Point → Nat) (c : Nat) (p : Point) :
    p ∈ clusterPoints rs label c ↔ p ∈ latLongLocations rs ∧ label p = c := by
  unfold clusterPoints
  rw [List.mem_filter]
  simp

lemma countP_label_sum (f : Record → Nat) :
    ∀ (rs : List Record) (k : Nat), (∀ r ∈ rs, f r < k) →
      ((Finset.range k).sum (fun c => rs.countP (fun r => decide (f r = c)))) = rs.length := by
  intro rs
  induction rs with
  | nil =>
    intro k h
    simp
  | cons a rs ih =>
    intro k h
    have ha : f a < k := h a (List.mem_cons_self _ _)
    have hrs : ∀ r ∈ rs, f r < k := fun r hr => h r (List.mem_cons_of_mem _ hr)
    simp only [List.countP_cons]
    rw [Finset.sum_add_distrib, ih k hrs]
    have hone :
        ((Finset.range k).sum fun c => if (decide (f a = c)) = true then 1 else 0) = 1 := by
      simp only [decide_eq_true_eq]
      rw [Finset.sum_ite_eq]
      simp [Finset.mem_range.mpr ha]
    rw [hone, List.length_cons]

/-- C7: aggregation conservation — for every cluster id, the displayed
`total_indivs` is the number of records whose `(Lat, Long)` pair lies
in that cluster's member coordinate set, equivalently the number of
records whose own coordinate carries that cluster label; and when every
distinct coordinate is labelled below `k`, the `total_indivs` of the
`k` clusters sum to the size of the lineage dataset — no record is
counted in zero or in two clusters. -/
theorem aggregation_conservation (rs : List Record) (label : Point → Nat) (k : Nat)
    (hk : ∀ p ∈ latLongLocations rs, label p < k) :
    (∀ c : Nat, totalIndivs rs label c
        = rs.countP (fun r => decide (coordOf r ∈ clusterPoints rs label c))) ∧
    (∀ c : Nat, totalIndivs rs label c
        = rs.countP (fun r => decide (label (coordOf r) = c))) ∧
    ((Finset.range k).sum (fun c => totalIndivs rs label c) = rs.length) := by
  have hcount : ∀ c : Nat, totalIndivs rs label c
      = rs.countP (fun r => decide (coordOf r ∈ clusterPoints rs label c)) := by
    intro c
    unfold totalIndivs clusterSubset
    rw [List.countP_eq_length_filter]
  have hcount2 : ∀ c : Nat, totalIndivs rs label c
      = rs.countP (fun r => decide (label (coordOf r) = c)) := by
    intro c
    rw [hcount c]
    apply List.countP_congr
    intro r hr
    simp only [decide_eq_true_eq]
    rw [mem_clusterPoints_iff]
    constructor
    · rintro ⟨-, h⟩
      exact h
    · intro h
      exact ⟨coordOf_mem_latLong rs r hr, h⟩
  refine ⟨hcount, hcount2, ?_⟩
  have : ((Finset.range k).sum fun c => totalIndivs rs label c)
      = (Finset.range k).sum fun c => rs.countP (fun r => decide (label (coordOf r) = c)) := by
    apply Finset.sum_congr rfl
    intro c _
    exact hcount2 c
  rw [this]
  apply countP_label_sum
  intro r hr
  exact hk _ (coordOf_mem_latLong rs r hr)

theorem aggregation_conservation_witness :
    (∀ p ∈ latLongLocations
        [Record.mk 3000 "France" (some 4850) (some 230) "R1b" "H1" "",
         Record.mk 2500 "Spain" (some 4000) (some (-300)) "G2a" "K1a" "",
         Record.mk 2100 "France" (some 4850) (some 230) "I2a" "U5b" ""],
      (fun p : Point => if p.2 < 0 then 0 else 1) p < 2) ∧
    ((Finset.range 2).sum (fun c => totalIndivs
        [Record.mk 3000 "France" (some 4850) (some 230) "R1b" "H1" "",
         Record.mk 2500 "Spain" (some 4000) (some (-300)) "G2a" "K1a" "",
         Record.mk 2100 "France" (some 4850) (some 230) "I2a" "U5b" ""]
        (fun p : Point => if p.2 < 0 then 0 else 1) c) = 3) :=
  ⟨by decide,
   (aggregation_conservation
      [Record.mk 3000 "France" (some 4850) (some 230) "R1b" "H1" "",
       Record.mk 2500 "Spain" (some 4000) (some (-300)) "G2a" "K1a" "",
       Record.mk 2100 "France" (some 4850) (some 230) "I2a" "U5b" ""]
      (fun p : Point => if p.2 < 0 then 0 else 1) 2 (by decide)).2.2⟩

/-! ## The spatial clusterer (lines 391-396)

`KMeans(n_clusters=k, random_state=42, n_init=10).fit(coords)` is the
external scikit-learn library, not code of this repository; §4.5 of the
spec fixes its contract (deterministic centroid-based partitioning,
`k` centroids, one membership label per distinct coordinate, nearest
centroid).  The model below implements that contract with Lloyd
iterations from a deterministic initialisation. -/

/-- A centroid (derived, so rational-valued). -/
abbrev QPoint := ℚ × ℚ

/-- A coordinate pair as a rational point. -/
def toQ (p : Point) : QPoint :=
  ((p.1 : ℚ), (p.2 : ℚ))

/-- Squared euclidean distance between a point and a centroid. -/
def qSqDist (p q : QPoint) : ℚ :=
  (p.1 - q.1) ^ 2 + (p.2 - q.2) ^ 2

/-- Modelled from the spec: the nearest-centroid assignment of §4.5
(scikit-learn's `KMeans` labelling is not in the repository).  Index of
the closest centroid, earliest index on ties. -/
def qNearestIdxAux (p : QPoint) : List QPoint → Nat → Nat → ℚ → Nat
  | [], _, best, _ => best
  | c :: cs, i, best, bestd =>
    if qSqDist p c < bestd then qNearestIdxAux p cs (i + 1) i (qSqDist p c)
    else qNearestIdxAux p cs (i + 1) best bestd

/-- Modelled from the spec: nearest-centroid index of a point (§4.5). -/
def qNearestIdx (cs : List QPoint) (p : QPoint) : Nat :=
  match cs with
  | [] => 0
  | c :: cs' => qNearestIdxAux p cs' 1 0 (qSqDist p c)

/-- Modelled from the spec: one Lloyd update — every centroid moves to
the mean of its assigned points; a centroid with no assigned points is
kept (§4.5 permits degenerate clusters). -/
def centroidUpdate (pts : List Point) (cs : List QPoint) : List QPoint :=
  (List.range cs.length).map (fun i =>
    let members := pts.filter (fun p => decide (qNearestIdx cs (toQ p) = i))
    if members.length = 0 then cs.getD i (0, 0)
    else ((members.map (fun p => ((p.1 : ℚ)))).sum / (members.length : ℚ),
          (members.map (fun p => ((p.2 : ℚ)))).sum / (members.length : ℚ)))

/-- Modelled from the spec: iterated Lloyd updates (the fixed seed and
`n_init=10` of line 391-392 make the external clusterer a
deterministic function; the model fixes the iteration count). -/
def lloydIter : Nat → List Point → List QPoint → List QPoint
  | 0, _, cs => cs
  | n + 1, pts, cs => lloydIter n pts (centroidUpdate pts cs)

/-- Modelled from the spec: `KMeans(...).fit(coords).cluster_centers_`
— `k` centroids from the deterministic initialisation (first `k`
distinct coordinates) after the Lloyd iterations. -/
def kmeansFit (k : Nat) (pts : List Point) : List QPoint :=
  lloydIter 10 pts ((pts.take k).map toQ)

/-- Modelled from the spec: `KMeans(...).fit(coords).labels_` — the
cluster id of one coordinate: its nearest fitted centroid. -/
def kmeansLabel (k : Nat) (pts : List Point) (p : Point) : Nat :=
  qNearestIdx (kmeansFit k pts) (toQ p)

lemma qNearestIdxAux_lt (p : QPoint) :
    ∀ (cs : List QPoint) (i best : Nat) (d : ℚ), best < i →
      qNearestIdxAux p cs i best d < i + cs.length := by
  intro cs
  induction cs with
  | nil =>
    intro i best d h
    rw [qNearestIdxAux]
    simpa using h
  | cons c cs' ih =>
    intro i best d h
    rw [qNearestIdxAux]
    split_ifs
    · have := ih (i + 1) i (qSqDist p c) (Nat.lt_succ_self i)
      simp only [List.length_cons]
      omega
    · have := ih (i + 1) best d (Nat.lt_succ_of_lt h)
      simp only [List.length_cons]
      omega

lemma qNearestIdx_lt (cs : List QPoint) (p : QPoint) (h : cs ≠ []) :
    qNearestIdx cs p < cs.length := by
  match cs, h with
  | c :: cs', _ =>
    rw [qNearestIdx]
    have := qNearestIdxAux_lt p cs' 1 0 (qSqDist p c) Nat.zero_lt_one
    simp only [List.length_cons]
    omega

lemma length_centroidUpdate (pts : List Point) (cs : List QPoint) :
    (centroidUpdate pts cs).length = cs.length := by
  rw [centroidUpdate, List.length_map, List.length_range]

lemma length_lloydIter :
    ∀ (n : Nat) (pts : List Point) (cs : List QPoint),
      (lloydIter n pts cs).length = cs.length := by
  intro n
  induction n with
  | zero => intro pts cs; rfl
  | succ n ih =>
    intro pts cs
    rw [lloydIter, ih, length_centroidUpdate]

lemma length_kmeansFit (k : Nat) (pts : List Point) (hk : k ≤ pts.length) :
    (kmeansFit k pts).length = k := by
  rw [kmeansFit, length_lloydIter, List.length_map, List.length_take]
  omega

/-- C6: clustering completeness — for every valid cluster count `k` in
`[5,500]` and every non-empty de-duplicated coordinate list with at
least `k` points, the fitted clusterer yields exactly `k` clusters,
each with a centroid, and every input coordinate receives exactly one
cluster label, a valid id below `k`. -/
theorem clustering_completeness (k : Nat) (pts : List Point)
    (h5 : 5 ≤ k) (h500 : k ≤ 500) (hnd : pts.Nodup) (hk : k ≤ pts.length) :
    (kmeansFit k pts).length = k ∧
    (∀ p ∈ pts, kmeansLabel k pts p < k) ∧
    (∀ p ∈ pts, ∃! c : Nat, kmeansLabel k pts p = c) := by
  have hlen : (kmeansFit k pts).length = k := length_kmeansFit k pts hk
  refine ⟨hlen, ?_, ?_⟩
  · intro p _
    have hne : kmeansFit k pts ≠ [] := by
      intro hc
      rw [hc] at hlen
      simp at hlen
      omega
    have := qNearestIdx_lt (kmeansFit k pts) (toQ p) hne
    rw [hlen] at this
    exact this
  · intro p _
    exact ⟨kmeansLabel k pts p, rfl, fun y hy => hy.symm⟩

theorem clustering_completeness_witness :
    5 ≤ 5 ∧ ([((0:Int),(0:Int)), (100,0), (0,100), (100,100), (50,50)] : List Point).Nodup ∧
    (kmeansFit 5 [((0:Int),(0:Int)), (100,0), (0,100), (100,100), (50,50)]).length = 5 :=
  ⟨by decide, by decide,
   (clustering_completeness 5 [((0:Int),(0:Int)), (100,0), (0,100), (100,100), (50,50)]
      (by decide) (by decide) (by decide) (by decide)).1⟩

/-! ## CLI cluster-flag validation (lines 149-172, 387-396)

`argparse` with `type=int` and defaults 150/350; a non-integer token
after a flag raises inside the `try` (line 155-163) and prints the
catch-all message; an out-of-range integer is caught by the explicit
checks of lines 166-172.  Each failure calls `exit()` before the data
processing and clustering run, so no `map.html` artifact is written. -/

/-- `int(token)`: optional sign followed by digits (a failure is
`None`, modelling the `ValueError` that argparse turns into a parse
error). -/
def pyIntToken? (s : String) : Option Int :=
  match s.data with
  | '-' :: rest => (parseDigits? rest).map (fun n => -(n : Int))
  | '+' :: rest => (parseDigits? rest).map (fun n => ((n : Nat) : Int))
  | l => (parseDigits? l).map (fun n => ((n : Nat) : Int))

/-- Line 167: the `--cluster_Y` range diagnostic. -/
def cluster_Y_range_msg : String :=
  "Error: Cluster number for Y must be between 5 and 500.\nProgram terminated."

/-- Line 171: the `--cluster_mt` range diagnostic. -/
def cluster_mt_range_msg : String :=
  "Error: Cluster number for mt must be between 5 and 500.\nProgram terminated."

/-- Line 162: the non-integer-after-flag diagnostic. -/
def cluster_flag_int_msg : String :=
  "Error: Please provide an integer between 5 and 500 following the --cluster flags.\nProgram terminated"

/-- The value a cluster flag contributes: the default when the flag is
absent, else `int(token)`. -/
def clusterTokVal (dflt : Int) (tok : Option String) : Option Int :=
  match tok with
  | none => some dflt
  | some t => pyIntToken? t

/-- Lines 149-172: flag parsing (defaults 150 / 350) and the two range
checks, in source order; an error is the printed diagnostic. -/
def parseClusterArgs (yTok mtTok : Option String) : Except String (Int × Int) :=
  match clusterTokVal 150 yTok with
  | none => Except.error cluster_flag_int_msg
  | some y =>
    match clusterTokVal 350 mtTok with
    | none => Except.error cluster_flag_int_msg
    | some mt =>
      if ¬(5 ≤ y ∧ y ≤ 500) then Except.error cluster_Y_range_msg
      else if ¬(5 ≤ mt ∧ mt ≤ 500) then Except.error cluster_mt_range_msg
      else Except.ok (y, mt)

/-- The run as a function of the cluster flags and the input rows: a
validation failure terminates with the diagnostic before clustering; a
valid pair of counts fits the two clusterers on the two lineage
tables' distinct coordinates (lines 379-396). -/
def program (yTok mtTok : Option String) (rs : List Record) :
    Except String (List QPoint × List QPoint) :=
  match parseClusterArgs yTok mtTok with
  | Except.error m => Except.error m
  | Except.ok (kY, kMt) =>
    Except.ok (kmeansFit kY.toNat (latLongLocations (annotations_Y rs)),
               kmeansFit kMt.toNat (latLongLocations (annotations_mt rs)))

/-- C9 counterexample: the rejection diagnostic is not one line — the
message printed for `--cluster_Y 4` is the two-line string
`"Error: Cluster number for Y must be between 5 and 500.\nProgram
terminated."`. -/
theorem cli_diag_two_lines_cex :
    parseClusterArgs (some "4") none = Except.error cluster_Y_range_msg ∧
    '\n' ∈ cluster_Y_range_msg.data := by
  constructor
  · rfl
  · decide

/-- C9 (amended): a cluster flag whose token is a non-integer or an
integer outside `[5,500]` makes the program terminate with the fixed
*two-line* diagnostic (error line plus `"Program terminated"`) before
any clustering runs, producing no artifact; accepted runs have both
counts in `[5,500]`, and absent flags default to 150 (Y) and
350 (mt). -/
theorem cli_validation (yTok mtTok : Option String) (rs : List Record) :
    (parseClusterArgs none none = Except.ok (150, 350)) ∧
    (∀ y mt : Int, parseClusterArgs yTok mtTok = Except.ok (y, mt) →
      (5 ≤ y ∧ y ≤ 500) ∧ (5 ≤ mt ∧ mt ≤ 500) ∧
      (yTok = none → y = 150) ∧ (mtTok = none → mt = 350)) ∧
    (∀ m : String, parseClusterArgs yTok mtTok = Except.error m →
      program yTok mtTok rs = Except.error m) ∧
    (((∃ t, yTok = some t ∧
        (pyIntToken? t = none ∨ ∃ n, pyIntToken? t = some n ∧ (n < 5 ∨ 500 < n))) ∨
      (∃ t, mtTok = some t ∧
        (pyIntToken? t = none ∨ ∃ n, pyIntToken? t = some n ∧ (n < 5 ∨ 500 < n)))) →
      ∃ m, program yTok mtTok rs = Except.error m) := by
  refine ⟨rfl, ?_, ?_, ?_⟩
  · intro y mt h
    unfold parseClusterArgs at h
    rcases hy : clusterTokVal 150 yTok with _ | y'
    · rw [hy] at h
      exact Except.noConfusion h
    · rw [hy] at h
      rcases hmt : clusterTokVal 350 mtTok with _ | mt'
      · rw [hmt] at h
        exact Except.noConfusion h
      · rw [hmt] at h
        dsimp only at h
        split_ifs at h with h1 h2
        · cases h
          refine ⟨by omega, by omega, ?_, ?_⟩
          · intro hn
            rw [hn] at hy
            cases hy
            rfl
          · intro hn
            rw [hn] at hmt
            cases hmt
            rfl
  · intro m h
    unfold program
    rw [h]
  · intro hbad
    have : ∃ m, parseClusterArgs yTok mtTok = Except.error m := by
      unfold parseClusterArgs
      rcases hbad with ⟨t, rfl, hfail⟩ | ⟨t, rfl, hfail⟩
      · rcases hfail with hnone | ⟨n, hn, hrange⟩
        · rw [show clusterTokVal 150 (some t) = pyIntToken? t from rfl, hnone]
          exact ⟨cluster_flag_int_msg, rfl⟩
        · rw [show clusterTokVal 150 (some t) = pyIntToken? t from rfl, hn]
          rcases hmt : clusterTokVal 350 mtTok with _ | mt'
          · exact ⟨cluster_flag_int_msg, rfl⟩
          · dsimp only
            rw [if_pos (by omega)]
            exact ⟨cluster_Y_range_msg, rfl⟩
      · rcases hfail with hnone | ⟨n, hn, hrange⟩
        · rw [show clusterTokVal 350 (some t) = pyIntToken? t from rfl, hnone]
          rcases hy : clusterTokVal 150 yTok with _ | y'
          · exact ⟨cluster_flag_int_msg, rfl⟩
          · exact ⟨cluster_flag_int_msg, rfl⟩
        · rw [show clusterTokVal 350 (some t) = pyIntToken? t from rfl, hn]
          rcases hy : clusterTokVal 150 yTok with _ | y'
          · exact ⟨cluster_flag_int_msg, rfl⟩
          · dsimp only
            by_cases h1 : ¬(5 ≤ y' ∧ y' ≤ 500)
            · rw [if_pos h1]
              exact ⟨cluster_Y_range_msg, rfl⟩
            · rw [if_neg h1, if_pos (by omega)]
              exact ⟨cluster_mt_range_msg, rfl⟩
    rcases this with ⟨m, hm⟩
    refine ⟨m, ?_⟩
    unfold program
    rw [hm]

theorem cli_validation_witness :
    program (some "700") none [] = Except.error cluster_Y_range_msg := by
  have h := (cli_validation (some "700") none []).2.2.1 cluster_Y_range_msg (by rfl)
  exact h
